import Mathlib

/-!
Verification of the `iterates` library (async sequence operators, `src/src/async.ts`
and the currying utilities).  Each TypeScript operator that a claim touches is
shallowly embedded as an executable Lean function over lists: a finite async
sequence is modelled as the `List` of the values it yields (for `throttle`,
paired with the `Date.now()` wall-clock timestamp at which each value arrives),
and a sequence's side effects (pull counts, terminal return values, thrown
errors) are made explicit in the result types.
-/

/- ------------------------------------------------------------------ -/
/- Definitions                                                        -/
/- ------------------------------------------------------------------ -/

/-- Terminal (return) value of `zip(a, b)` (`src/src/async.ts` lines 573-590):
the generator ends either with `return a`, with `return b`, or by falling off
the end (JS `undefined`).  The tag records which raw sequence object was
returned. -/
inductive ZipReturn where
  | seqA
  | seqB
  | undef
  deriving DecidableEq, Repr

/-- Embedding of `zip` (`src/src/async.ts` lines 573-590) on finite sequences.
The loop iterates over `a`; for each item of `a` it pulls `b` once: if `b` is
exhausted it does `return a`, otherwise it yields the pair.  After `a` is
exhausted it pulls `b` once more and does `return b` if `b` was not exhausted.
Result: the yielded pairs and the terminal return value. -/
def zip {A B : Type} : List A → List B → List (A × B) × ZipReturn
  | [], [] => ([], ZipReturn.undef)
  | [], _ :: _ => ([], ZipReturn.seqB)
  | _ :: _, [] => ([], ZipReturn.seqA)
  | a :: as, b :: bs =>
    let rest := zip as bs
    ((a, b) :: rest.1, rest.2)

/-- Embedding of `fold` (`src/src/async.ts` lines 389-399): start from
`initialValue` and combine with every item of the sequence left to right. -/
def fold {T U : Type} (combine : U → T → U) (value : U) : List T → U
  | [] => value
  | item :: rest => fold combine (combine value item) rest

/-- Embedding of `scan` (`src/src/async.ts` lines 421-432): like `fold` but the
generator yields every intermediate accumulator; its terminal return value is
the final accumulator (`return value`), which on empty input is still
`initialValue`. -/
def scan {T U : Type} (combine : U → T → U) (value : U) : List T → List U × U
  | [] => ([], value)
  | item :: rest =>
    let value' := combine value item
    let r := scan combine value' rest
    (value' :: r.1, r.2)

/-- Loop body of `take` (`src/src/async.ts` lines 813-824) starting at a given
`index`.  Each loop iteration pulls one upstream item; on `yield` the index is
incremented and the loop breaks once `index >= count` (no further pull).  When
the upstream ends, the final pull that reported `done` is still a pull.
Returns the yielded items together with the number of upstream pulls. -/
def takeGo {T : Type} (count : Int) (index : Int) : List T → List T × Nat
  | [] => ([], 1)
  | item :: rest =>
    if index + 1 ≥ count then ([item], 1)
    else
      let r := takeGo count (index + 1) rest
      (item :: r.1, r.2 + 1)

/-- Embedding of `take` (`src/src/async.ts` lines 813-824): `if (count <= 0)
return` happens before any pull; otherwise the loop runs with `index = 0`. -/
def take {T : Type} (count : Int) (seq : List T) : List T × Nat :=
  if count ≤ 0 then ([], 0) else takeGo count 0 seq

/-- Minimal model of the JavaScript values the currying layer inspects
(`src/unnamed/part_008`, the utils module): `undefined`, `null`, or an object
together with which of the three sequence-capability members it exposes as
functions (`Symbol.iterator`, `Symbol.asyncIterator`, a `next` method). -/
inductive JSVal where
  | undef
  | jsNull
  | obj (hasSymbolIterator hasSymbolAsyncIterator hasNextMethod : Bool)
  deriving DecidableEq, Repr

/-- Embedding of `isIterableOrIterator` (`src/unnamed/part_008` lines 544-551):
`iterator != null && (typeof iterator[Symbol.iterator] === 'function' ||
typeof iterator[Symbol.asyncIterator] === 'function' ||
typeof iterator.next === 'function')`. -/
def isIterableOrIterator : JSVal → Bool
  | JSVal.undef => false
  | JSVal.jsNull => false
  | JSVal.obj si ai nx => si || ai || nx

/-- Outcome of invoking a `curry2WithOptions`-wrapped operator with exactly two
positional arguments (so the `options` parameter is `undefined`): either the
wrapped function is invoked at once (full call, options `undefined`), or a
unary partial awaiting `(b, options?)` is returned (second argument was
`undefined`), or a partial awaiting the sequence is returned with the second
argument captured as the options object. -/
inductive Curry2OptCall (R : Type) where
  | fullCall (r : R)
  | awaitSeqAndOptions
  | awaitSeq (capturedOptions : JSVal)
  deriving Repr

/-- Embedding of `curry2WithOptions` (`src/unnamed/part_008` lines 594-617)
specialised to a two-argument invocation (`options === undefined`): if
`b === undefined` return the `(b, options?)` partial; else if
`isIterableOrIterator(b)` perform the full call `func(a, b)`; else treat `b`
as the options object and return the `(b) => func(a, b, options)` partial. -/
def curry2WithOptions {A R : Type} (func : A → JSVal → JSVal → R) (a : A)
    (b : JSVal) : Curry2OptCall R :=
  match b with
  | JSVal.undef => Curry2OptCall.awaitSeqAndOptions
  | _ =>
    if isIterableOrIterator b then Curry2OptCall.fullCall (func a b JSVal.undef)
    else Curry2OptCall.awaitSeq b

/-- Loop of `throttle` (`src/src/async.ts` lines 616-638).  Each input item is
paired with the `Date.now()` wall-clock reading observed when it arrives.
`withheld` combines the code's `hasItem`/`lastItem` pair (the code always sets
them together: `hasItem = false` with `lastItem = undefined`, or
`hasItem = true` with `lastItem = item`), and `lastYield` is the time of the
last emission, `0` before any emission.  After the loop, a withheld item, if
any, is flushed. -/
def throttleGo {T : Type} (duration : Int) (withheld : Option T)
    (lastYield : Int) : List (Int × T) → List T
  | [] => withheld.toList
  | (now, item) :: rest =>
    if lastYield = 0 ∨ now - lastYield ≥ duration then
      item :: throttleGo duration none now rest
    else throttleGo duration (some item) lastYield rest

/-- Embedding of `throttle` (`src/src/async.ts` lines 616-638): the loop starts
with no withheld item and `lastYield = 0`. -/
def throttle {T : Type} (duration : Int) (seq : List (Int × T)) : List T :=
  throttleGo duration none 0 seq

/-- Spec-side description of the emitted (non-flushed) items, following the
spec's words: the very first item opens a window and is yielded immediately;
afterwards an item is yielded exactly when it arrives at least `duration` ms
after the last emitted item.  `lastEmit` is the arrival time of the last
emitted item, `none` before the first. -/
def throttleSpecEmits {T : Type} (duration : Int) (lastEmit : Option Int) :
    List (Int × T) → List T
  | [] => []
  | (t, x) :: rest =>
    match lastEmit with
    | none => x :: throttleSpecEmits duration (some t) rest
    | some t0 =>
      if t - t0 ≥ duration then x :: throttleSpecEmits duration (some t) rest
      else throttleSpecEmits duration (some t0) rest

/-- Spec-side description of the item still withheld when the sequence
completes: the most recent suppressed item — i.e. the final item of the
sequence, exactly when that item was itself suppressed rather than
emitted. -/
def throttleSpecWithheld {T : Type} (duration : Int) (lastEmit : Option Int) :
    List (Int × T) → Option T
  | [] => none
  | [(t, x)] =>
    match lastEmit with
    | none => none
    | some t0 => if t - t0 ≥ duration then none else some x
  | (t, _) :: y :: rest =>
    match lastEmit with
    | none => throttleSpecWithheld duration (some t) (y :: rest)
    | some t0 =>
      if t - t0 ≥ duration then throttleSpecWithheld duration (some t) (y :: rest)
      else throttleSpecWithheld duration (some t0) (y :: rest)

/-- Spec-side description of `throttle`: the emitted items in order, followed
by the single flush of the withheld item, if one was still withheld when the
sequence completed. -/
def throttleSpec {T : Type} (duration : Int) (seq : List (Int × T)) : List T :=
  throttleSpecEmits duration none seq ++
    (throttleSpecWithheld duration none seq).toList

/-- An item buffered in a Subscriber queue (`src/src/async.ts` line 63):
`{done:false, isError:false, value}`, `{done:false, isError:true, error}` or
`{done:true, isError:false}`. -/
inductive SubjectItem (T E : Type) where
  | value (v : T)
  | error (e : E)
  | done
  deriving DecidableEq, Repr

/-- State of a `Subject` (`src/src/async.ts` lines 146-194): the queues of all
subscribers ever attached, each tagged with whether it is still in the
`_subscribers` broadcast set (a detached subscriber's queue still exists on
the consumer side, it merely receives no further items), together with
`_isDisposed`. -/
structure Subject (T E : Type) where
  subscribers : List (Bool × List (SubjectItem T E))
  isDisposed : Bool
  deriving DecidableEq, Repr

/-- A freshly constructed Subject: no subscribers, not disposed. -/
def Subject.initial {T E : Type} : Subject T E := ⟨[], false⟩

/-- The message of the fault raised by `Subject._checkDisposed`
(`src/src/async.ts` line 151). -/
def disposedError : String := "The Subject have been disposed"

/-- `Subject.next` (`src/src/async.ts` lines 157-162): `_checkDisposed`, then
`pushNext(item)` on every subscriber in the broadcast set, appending
`{done:false, isError:false, value}` to its queue. -/
def Subject.next {T E : Type} (s : Subject T E) (item : T) :
    Except String (Subject T E) :=
  if s.isDisposed then Except.error disposedError
  else
    Except.ok
      ⟨s.subscribers.map fun p =>
          if p.1 then (p.1, p.2 ++ [SubjectItem.value item]) else p,
        s.isDisposed⟩

/-- `Subject.throw` (`src/src/async.ts` lines 166-172): `_checkDisposed`, then
`pushThrow(error)` on every subscriber in the broadcast set (appending the
error item and removing the subscriber from the set), then
`_subscribers.clear()`.  Note that `_isDisposed` is NOT set. -/
def Subject.throw {T E : Type} (s : Subject T E) (e : E) :
    Except String (Subject T E) :=
  if s.isDisposed then Except.error disposedError
  else
    Except.ok
      ⟨s.subscribers.map fun p =>
          if p.1 then (false, p.2 ++ [SubjectItem.error e]) else p,
        s.isDisposed⟩

/-- `Subject.done` (`src/src/async.ts` lines 178-185): `_checkDisposed`, then
`done()` on every subscriber in the broadcast set (appending the done item and
removing the subscriber from the set), then `_subscribers.clear()` and
`_isDisposed = true`. -/
def Subject.done {T E : Type} (s : Subject T E) :
    Except String (Subject T E) :=
  if s.isDisposed then Except.error disposedError
  else
    Except.ok
      ⟨s.subscribers.map fun p =>
          if p.1 then (false, p.2 ++ [SubjectItem.done]) else p,
        true⟩

/-- `Subject[Symbol.asyncIterator]` (`src/src/async.ts` lines 187-193): a new
subscriber with an empty queue is added to the broadcast set (there is no
disposed check on attach). -/
def Subject.attach {T E : Type} (s : Subject T E) : Subject T E :=
  ⟨s.subscribers ++ [(true, [])], s.isDisposed⟩

/-- Terminal outcome observed by a consumer iterating a subscriber queue:
a done result or a rejection carrying the pushed error. -/
inductive IterTerminal (E : Type) where
  | done
  | err (e : E)
  deriving DecidableEq, Repr

/-- Sequentially consuming a subscriber queue through `iterator.next()`
(`src/src/async.ts` lines 72-91, non-empty-queue branch): each call shifts the
oldest item; a value item resolves `{done:false, value}` and consumption
continues, a done item resolves `{done:true}`, an error item rejects with the
error.  Returns the observed values in order and the terminal, if reached. -/
def drainItems {T E : Type} : List (SubjectItem T E) →
    List T × Option (IterTerminal E)
  | [] => ([], none)
  | SubjectItem.value v :: rest =>
    let r := drainItems rest
    (v :: r.1, r.2)
  | SubjectItem.error e :: _ => ([], some (IterTerminal.err e))
  | SubjectItem.done :: _ => ([], some IterTerminal.done)

/-- A producer-side operation on a Subject before completion: a consumer
attaches, or a value is pushed. -/
inductive SubjectOp (T : Type) where
  | attach
  | push (v : T)

/-- Runs a trace of attach/push operations against a Subject, through
`Subject.attach` and `Subject.next`. -/
def runOps {T E : Type} (s : Subject T E) :
    List (SubjectOp T) → Except String (Subject T E)
  | [] => Except.ok s
  | SubjectOp.attach :: rest => runOps s.attach rest
  | SubjectOp.push v :: rest =>
    match s.next v with
    | Except.error e => Except.error e
    | Except.ok s1 => runOps s1 rest

/-- The values pushed in a trace, in push order. -/
def pushesFrom {T : Type} (ops : List (SubjectOp T)) : List T :=
  ops.filterMap fun op =>
    match op with
    | SubjectOp.push v => some v
    | SubjectOp.attach => none

/-- Spec-side description of what each consumer is eligible for, following the
spec's words: for every consumer, in attach order, the values pushed at or
after its attach point, in push order. -/
def specQueues {T : Type} : List (SubjectOp T) → List (List T)
  | [] => []
  | SubjectOp.attach :: rest => pushesFrom rest :: specQueues rest
  | SubjectOp.push _ :: rest => specQueues rest

/-- Settlement of a single `advance` (`iterator.next()`) promise. -/
inductive Settlement (T E : Type) where
  | value (v : T)
  | done
  | rejected (e : E)
  deriving DecidableEq, Repr

/-- How a shifted queue item settles the corresponding promise
(`src/src/async.ts` lines 74-79 and 84-89). -/
def settleItem {T E : Type} : SubjectItem T E → Settlement T E
  | SubjectItem.value v => Settlement.value v
  | SubjectItem.error e => Settlement.rejected e
  | SubjectItem.done => Settlement.done

/-- Runtime state of one Subscriber (`src/src/async.ts` lines 62-110): the
buffered items, the number of pending `once('value')` listeners (in
registration order), and the settlements delivered so far, in order. -/
structure SubscriberRt (T E : Type) where
  items : List (SubjectItem T E)
  waiting : Nat
  settled : List (Settlement T E)
  deriving DecidableEq, Repr

/-- The promise executor run when a suspended `iterator.next()` call resumes
(`src/src/async.ts` lines 72-91): if the queue is non-empty it shifts the
oldest item and settles at once; if the queue is empty it registers a
`once('value')` listener.  Two `next()` calls issued before either resumes
both await the same already-resolved `lastNext` (the reassignment happens
only after the `await`), so both executors run against the state left by the
previous one. -/
def resumeAdvance {T E : Type} (s : SubscriberRt T E) : SubscriberRt T E :=
  match s.items with
  | item :: rest =>
    { s with items := rest, settled := s.settled ++ [settleItem item] }
  | [] => { s with waiting := s.waiting + 1 }

/-- The JavaScript runtime fault raised by reading `item.isError` on the
`undefined` result of shifting an empty queue. -/
def typeErrorMessage : String :=
  "TypeError: Cannot read properties of undefined (reading isError)"

/-- Node's `EventEmitter.emit('value')` with `k` pending `once` listeners:
each listener is removed and invoked in registration order; the listener body
(`src/src/async.ts` lines 83-90) does `this.items.shift()!` and reads
`item.isError` — on an empty queue `shift()` yields `undefined` and the
property access throws a TypeError, which propagates out of `emit`, out of
`pushNext` and out of `Subject.next` to the producer. -/
def emitValue {T E : Type} : Nat → SubscriberRt T E →
    Except String (SubscriberRt T E)
  | 0, s => Except.ok s
  | k + 1, s =>
    match s.items with
    | [] => Except.error typeErrorMessage
    | item :: rest =>
      emitValue k
        { s with items := rest, settled := s.settled ++ [settleItem item] }

/-- `Subscriber.pushNext` (`src/src/async.ts` lines 96-99): push the value
item, then emit `'value'`, waking every pending once-listener. -/
def Subscriber.pushNext {T E : Type} (v : T) (s : SubscriberRt T E) :
    Except String (SubscriberRt T E) :=
  emitValue s.waiting
    { s with items := s.items ++ [SubjectItem.value v], waiting := 0 }

/-- Outcome of invoking a `curry2`-wrapped operator: either the wrapped binary
function was invoked, or a unary partial was returned. -/
inductive Curry2Call (B R : Type) where
  | fullCall (r : R)
  | unary (f : B → R)

/-- Embedding of `curry2` (`src/unnamed/part_008` lines 562-569): the wrapper
tests `b === undefined`; an omitted second argument and an explicitly passed
`undefined` are indistinguishable, both modelled as `none`.  On `undefined` it
returns the partial `(b) => func(a, b)`, otherwise it calls `func(a, b)`. -/
def curry2 {A B R : Type} (func : A → B → R) (a : A) (b : Option B) :
    Curry2Call B R :=
  match b with
  | none => Curry2Call.unary (fun b => func a b)
  | some bv => Curry2Call.fullCall (func a bv)

/- ------------------------------------------------------------------ -/
/- Theorems                                                           -/
/- ------------------------------------------------------------------ -/

theorem zip_pairs_eq {A B : Type} :
    ∀ (as : List A) (bs : List B), as.length ≤ bs.length →
      (zip as bs).1 = List.zip as bs := by
  intro as
  induction as with
  | nil => intro bs _; cases bs <;> rfl
  | cons a as ih =>
    intro bs h
    cases bs with
    | nil => simp at h
    | cons b bs =>
      simp only [zip, List.zip_cons_cons]
      rw [ih bs (by simpa using h)]

/-- C4: for sequences `a` of length `m` and `b` of length `n` with `m ≤ n`,
`zip(a, b)` yields exactly the `m` pairs `[a_i, b_i]` in order, then
terminates. -/
theorem zip_yields_min_pairs {A B : Type} (as : List A) (bs : List B)
    (h : as.length ≤ bs.length) :
    (zip as bs).1 = List.zip as bs ∧ (zip as bs).1.length = as.length := by
  refine ⟨zip_pairs_eq as bs h, ?_⟩
  rw [zip_pairs_eq as bs h, List.length_zip]
  omega

theorem zip_yields_min_pairs_witness :
    (zip [(1 : Int), 2, 3] [(10 : Int), 20, 30, 40]).1 =
        [(1, 10), (2, 20), (3, 30)] ∧
      (zip [(1 : Int), 2, 3] [(10 : Int), 20, 30, 40]).1.length = 3 := by
  have h := zip_yields_min_pairs [(1 : Int), 2, 3] [(10 : Int), 20, 30, 40]
    (by decide)
  exact ⟨by rw [h.1]; rfl, h.2⟩

/-- C5 counterexample: with `a = [1,2]` and `b = [10]`, `b` ends first (it is
the shorter one) yet the terminal value is `a`, not `b`; and with `a = [1]`,
`b = [10]` both end at the same step yet the terminal value is `undefined`,
not `a`. -/
theorem zip_return_counterexample :
    (zip [(1 : Int), 2] [(10 : Int)]).2 ≠ ZipReturn.seqB ∧
      (zip [(1 : Int)] [(10 : Int)]).2 ≠ ZipReturn.seqA := by
  decide

/-- C5 amended: the terminal value of `zip(a, b)` is the raw sequence object of
whichever side had NOT yet ended (the longer one); when both end at the same
step the terminal value is `undefined`. -/
theorem zip_return_longer {A B : Type} :
    ∀ (as : List A) (bs : List B),
      (as.length < bs.length → (zip as bs).2 = ZipReturn.seqB) ∧
        (bs.length < as.length → (zip as bs).2 = ZipReturn.seqA) ∧
        (as.length = bs.length → (zip as bs).2 = ZipReturn.undef) := by
  intro as
  induction as with
  | nil =>
    intro bs
    cases bs with
    | nil => exact ⟨fun h => by simp at h, fun h => by simp at h, fun _ => rfl⟩
    | cons b bs =>
      exact ⟨fun _ => rfl, fun h => by simp at h, fun h => by simp at h⟩
  | cons a as ih =>
    intro bs
    cases bs with
    | nil =>
      exact ⟨fun h => by simp at h, fun _ => rfl, fun h => by simp at h⟩
    | cons b bs =>
      refine ⟨fun h => ?_, fun h => ?_, fun h => ?_⟩
      · show (zip as bs).2 = ZipReturn.seqB
        exact (ih bs).1 (by simpa using h)
      · show (zip as bs).2 = ZipReturn.seqA
        exact (ih bs).2.1 (by simpa using h)
      · show (zip as bs).2 = ZipReturn.undef
        exact (ih bs).2.2 (by simpa using h)

theorem zip_return_longer_witness :
    (zip [(1 : Int)] [(10 : Int), 20]).2 = ZipReturn.seqB ∧
      (zip [(1 : Int), 2] [(10 : Int)]).2 = ZipReturn.seqA ∧
      (zip [(1 : Int)] [(10 : Int)]).2 = ZipReturn.undef :=
  ⟨(zip_return_longer [(1 : Int)] [(10 : Int), 20]).1 (by decide),
    (zip_return_longer [(1 : Int), 2] [(10 : Int)]).2.1 (by decide),
    (zip_return_longer [(1 : Int)] [(10 : Int)]).2.2 (by decide)⟩

theorem fold_eq_foldl {T U : Type} (combine : U → T → U) :
    ∀ (xs : List T) (init : U), fold combine init xs = xs.foldl combine init := by
  intro xs
  induction xs with
  | nil => intro init; rfl
  | cons x xs ih => intro init; simp only [fold, List.foldl_cons]; exact ih _

theorem scan_spec {T U : Type} (combine : U → T → U) :
    ∀ (xs : List T) (init : U),
      (scan combine init xs).1 =
          (List.range xs.length).map
            (fun i => (xs.take (i + 1)).foldl combine init) ∧
        (scan combine init xs).2 = xs.foldl combine init := by
  intro xs
  induction xs with
  | nil => intro init; exact ⟨rfl, rfl⟩
  | cons x xs ih =>
    intro init
    constructor
    · simp only [scan, List.length_cons, List.range_succ_eq_map, List.map_cons,
        List.map_map, List.take, List.foldl_cons]
      refine congrArg₂ List.cons rfl ?_
      rw [(ih (combine init x)).1]
      rfl
    · simp only [scan, List.foldl_cons]
      exact (ih (combine init x)).2

/-- C6: `fold(init, combine, seq)` returns `init` on empty input and otherwise
combines `init` left-to-right with every item (`fold 0 (+) [1,2,3] = 6`);
`scan` on the same inputs yields every intermediate accumulator in order
(`[1,3,6]`), yields nothing on empty input, and its terminal return value on
empty input is `init`. -/
theorem fold_scan_spec :
    (∀ (T U : Type) (combine : U → T → U) (init : U) (xs : List T),
        fold combine init [] = init ∧
          fold combine init xs = xs.foldl combine init ∧
          (scan combine init xs).1 =
            (List.range xs.length).map
              (fun i => (xs.take (i + 1)).foldl combine init) ∧
          (scan combine init xs).2 = xs.foldl combine init ∧
          scan combine init [] = ([], init)) ∧
      fold (fun s x => s + x) (0 : Int) [1, 2, 3] = 6 ∧
      (scan (fun s x => s + x) (0 : Int) [1, 2, 3]).1 = [1, 3, 6] := by
  refine ⟨fun T U combine init xs => ?_, by decide, by decide⟩
  exact ⟨rfl, fold_eq_foldl combine xs init, (scan_spec combine xs init).1,
    (scan_spec combine xs init).2, rfl⟩

theorem takeGo_all {T : Type} :
    ∀ (xs : List T) (count index : Int),
      count ≥ index + xs.length → (takeGo count index xs).1 = xs := by
  intro xs
  induction xs with
  | nil => intro count index _; rfl
  | cons x xs ih =>
    intro count index h
    simp only [List.length_cons] at h
    by_cases hc : index + 1 ≥ count
    · have hxs : xs.length = 0 := by omega
      rw [List.length_eq_zero] at hxs
      subst hxs
      simp [takeGo, hc]
    · simp only [takeGo, if_neg hc]
      rw [ih count (index + 1) (by push_cast at h; omega)]

/-- C7: `take(count, seq)` with `count ≤ 0` terminates immediately with no
upstream pull at all, and with `count ≥ length(seq)` it yields every item of
`seq` in order. -/
theorem take_spec {T : Type} (count : Int) (xs : List T) :
    (count ≤ 0 → take count xs = ([], 0)) ∧
      ((xs.length : Int) ≤ count → (take count xs).1 = xs) := by
  constructor
  · intro h
    simp [take, h]
  · intro h
    by_cases hc : count ≤ 0
    · have : xs.length = 0 := by omega
      rw [List.length_eq_zero] at this
      subst this
      simp [take, hc]
    · simp only [take, if_neg hc]
      exact takeGo_all xs count 0 (by omega)

theorem take_spec_witness :
    take (-1) [(7 : Int), 8] = ([], 0) ∧ (take 5 [(7 : Int), 8]).1 = [7, 8] :=
  ⟨(take_spec (-1) [(7 : Int), 8]).1 (by decide),
    (take_spec 5 [(7 : Int), 8]).2 (by decide)⟩

theorem throttleGo_nil {T : Type} (d : Int) (w : Option T) (ly : Int) :
    throttleGo d w ly [] = w.toList := rfl

theorem throttleGo_cons {T : Type} (d : Int) (w : Option T) (ly t : Int)
    (x : T) (rest : List (Int × T)) :
    throttleGo d w ly ((t, x) :: rest) =
      if ly = 0 ∨ t - ly ≥ d then x :: throttleGo d none t rest
      else throttleGo d (some x) ly rest := rfl

theorem throttleSpecEmits_nil {T : Type} (d : Int) (le : Option Int) :
    throttleSpecEmits (T := T) d le [] = [] := rfl

theorem throttleSpecEmits_first {T : Type} (d t : Int) (x : T)
    (rest : List (Int × T)) :
    throttleSpecEmits d none ((t, x) :: rest) =
      x :: throttleSpecEmits d (some t) rest := rfl

theorem throttleSpecEmits_cons {T : Type} (d t0 t : Int) (x : T)
    (rest : List (Int × T)) :
    throttleSpecEmits d (some t0) ((t, x) :: rest) =
      if t - t0 ≥ d then x :: throttleSpecEmits d (some t) rest
      else throttleSpecEmits d (some t0) rest := rfl

theorem throttleSpecWithheld_single {T : Type} (d t0 t : Int) (x : T) :
    throttleSpecWithheld d (some t0) [(t, x)] =
      if t - t0 ≥ d then none else some x := rfl

theorem throttleSpecWithheld_single_first {T : Type} (d t : Int) (x : T) :
    throttleSpecWithheld d none [(t, x)] = none := rfl

theorem throttleSpecWithheld_cons {T : Type} (d t0 t : Int) (x : T)
    (q : Int × T) (rs : List (Int × T)) :
    throttleSpecWithheld d (some t0) ((t, x) :: q :: rs) =
      if t - t0 ≥ d then throttleSpecWithheld d (some t) (q :: rs)
      else throttleSpecWithheld d (some t0) (q :: rs) := rfl

theorem throttleSpecWithheld_cons_first {T : Type} (d t : Int) (x : T)
    (q : Int × T) (rs : List (Int × T)) :
    throttleSpecWithheld d none ((t, x) :: q :: rs) =
      throttleSpecWithheld d (some t) (q :: rs) := rfl

theorem throttleGo_eq_spec {T : Type} :
    ∀ (seq : List (Int × T)) (d ly : Int) (w : Option T),
      0 < ly → (∀ p ∈ seq, 0 < p.1) →
      throttleGo d w ly seq =
        throttleSpecEmits d (some ly) seq ++
          (match seq with
           | [] => w.toList
           | _ :: _ => (throttleSpecWithheld d (some ly) seq).toList) := by
  intro seq
  induction seq with
  | nil => intro d ly w _ _; rfl
  | cons p rest ih =>
    intro d ly w hly hpos
    obtain ⟨t, x⟩ := p
    have ht : 0 < t := hpos (t, x) (List.mem_cons_self _ _)
    have hrest : ∀ p ∈ rest, 0 < p.1 := fun p hp =>
      hpos p (List.mem_cons_of_mem _ hp)
    by_cases hc : t - ly ≥ d
    · have hcode : ly = 0 ∨ t - ly ≥ d := Or.inr hc
      cases rest with
      | nil =>
        rw [throttleGo_cons, if_pos hcode, throttleGo_nil]
        show [x] = throttleSpecEmits d (some ly) [(t, x)] ++
          (throttleSpecWithheld d (some ly) [(t, x)]).toList
        rw [throttleSpecEmits_cons, if_pos hc, throttleSpecEmits_nil,
          throttleSpecWithheld_single, if_pos hc]
        rfl
      | cons q rs =>
        rw [throttleGo_cons, if_pos hcode, throttleSpecEmits_cons, if_pos hc,
          throttleSpecWithheld_cons, if_pos hc, ih d t none ht hrest,
          List.cons_append]
    · have hcode : ¬(ly = 0 ∨ t - ly ≥ d) := by omega
      cases rest with
      | nil =>
        rw [throttleGo_cons, if_neg hcode, throttleGo_nil]
        show [x] = throttleSpecEmits d (some ly) [(t, x)] ++
          (throttleSpecWithheld d (some ly) [(t, x)]).toList
        rw [throttleSpecEmits_cons, if_neg hc, throttleSpecEmits_nil,
          throttleSpecWithheld_single, if_neg hc]
        rfl
      | cons q rs =>
        rw [throttleGo_cons, if_neg hcode, throttleSpecEmits_cons, if_neg hc,
          throttleSpecWithheld_cons, if_neg hc, ih d ly (some x) hly hrest]

theorem throttleGo_nonpositive {T : Type} :
    ∀ (seq : List (Int × T)) (d ly : Int), d ≤ 0 → (∀ p ∈ seq, ly ≤ p.1) →
      List.Pairwise (fun p q : Int × T => p.1 ≤ q.1) seq →
      throttleGo d none ly seq = seq.map Prod.snd := by
  intro seq
  induction seq with
  | nil => intro d ly _ _ _; rfl
  | cons p rest ih =>
    intro d ly hd hle hsorted
    obtain ⟨t, x⟩ := p
    have hlt : ly ≤ t := hle (t, x) (List.mem_cons_self _ _)
    have hcode : ly = 0 ∨ t - ly ≥ d := Or.inr (by omega)
    rw [throttleGo_cons, if_pos hcode, List.map_cons]
    refine congrArg₂ List.cons rfl ?_
    exact ih d t hd (fun p hp => (List.pairwise_cons.mp hsorted).1 p hp)
      (List.pairwise_cons.mp hsorted).2

/-- C8: on a finite sequence of items with positive arrival timestamps
(`Date.now()` readings), `throttle(duration, seq)` yields the first item
immediately and every item arriving at least `duration` ms after the last
emitted item; all other items are suppressed except the most recent, which is
flushed exactly once after the sequence completes, if one was still withheld;
and with `duration ≤ 0` (and nondecreasing timestamps) every item is
yielded. -/
theorem throttle_matches_spec {T : Type} (d : Int) (seq : List (Int × T))
    (hpos : ∀ p ∈ seq, 0 < p.1) :
    throttle d seq = throttleSpec d seq ∧
      (d ≤ 0 → List.Pairwise (fun p q : Int × T => p.1 ≤ q.1) seq →
        throttle d seq = seq.map Prod.snd) := by
  constructor
  · cases seq with
    | nil => rfl
    | cons p rest =>
      obtain ⟨t, x⟩ := p
      have ht : 0 < t := hpos (t, x) (List.mem_cons_self _ _)
      have hfirst : (0 : Int) = 0 ∨ t - 0 ≥ d := Or.inl rfl
      show throttleGo d none 0 ((t, x) :: rest) =
        throttleSpecEmits d none ((t, x) :: rest) ++
          (throttleSpecWithheld d none ((t, x) :: rest)).toList
      rw [throttleGo_cons, if_pos hfirst, throttleSpecEmits_first]
      cases rest with
      | nil =>
        rw [throttleGo_nil, throttleSpecEmits_nil,
          throttleSpecWithheld_single_first]
        rfl
      | cons q rs =>
        have hrest : ∀ p ∈ q :: rs, 0 < p.1 := fun p hp =>
          hpos p (List.mem_cons_of_mem _ hp)
        rw [throttleGo_eq_spec (q :: rs) d t none ht hrest,
          throttleSpecWithheld_cons_first, List.cons_append]
  · intro hd hsorted
    exact throttleGo_nonpositive seq d 0 hd
      (fun p hp => le_of_lt (hpos p hp)) hsorted

theorem throttle_matches_spec_witness :
    throttle 10 [((10 : Int), (1 : Int)), (11, 2), (15, 3)] =
        throttleSpec 10 [((10 : Int), (1 : Int)), (11, 2), (15, 3)] ∧
      throttle 0 [((10 : Int), (1 : Int)), (11, 2), (15, 3)] = [1, 2, 3] := by
  constructor
  · exact (throttle_matches_spec 10 [((10 : Int), (1 : Int)), (11, 2), (15, 3)]
      (by decide)).1
  · rw [(throttle_matches_spec 0 [((10 : Int), (1 : Int)), (11, 2), (15, 3)]
      (by decide)).2 (by decide) (by decide)]
    rfl

theorem pushesFrom_attach {T : Type} (rest : List (SubjectOp T)) :
    pushesFrom (SubjectOp.attach :: rest) = pushesFrom rest := rfl

theorem pushesFrom_push {T : Type} (v : T) (rest : List (SubjectOp T)) :
    pushesFrom (SubjectOp.push v :: rest) = v :: pushesFrom rest := rfl

theorem specQueues_attach {T : Type} (rest : List (SubjectOp T)) :
    specQueues (SubjectOp.attach :: rest) = pushesFrom rest :: specQueues rest :=
  rfl

theorem specQueues_push {T : Type} (v : T) (rest : List (SubjectOp T)) :
    specQueues (SubjectOp.push v :: rest) = specQueues rest := rfl

theorem runOps_ok {T E : Type} :
    ∀ (ops : List (SubjectOp T)) (s : Subject T E),
      s.isDisposed = false → (∀ p ∈ s.subscribers, p.1 = true) →
      runOps s ops =
        Except.ok
          ⟨(s.subscribers.map fun p =>
                (true, p.2 ++ (pushesFrom ops).map SubjectItem.value)) ++
              (specQueues ops).map fun vs => (true, vs.map SubjectItem.value),
            false⟩ := by
  intro ops
  induction ops with
  | nil =>
    intro s hd hatt
    show Except.ok s = _
    have hmap : (s.subscribers.map fun p =>
        ((true : Bool),
          p.2 ++ (pushesFrom ([] : List (SubjectOp T))).map SubjectItem.value)) =
        s.subscribers := by
      have h1 : ∀ p ∈ s.subscribers,
          ((true : Bool),
            p.2 ++ (pushesFrom ([] : List (SubjectOp T))).map SubjectItem.value) =
          id p := by
        intro p hp
        obtain ⟨pa, pb⟩ := p
        have h := hatt _ hp
        simp only at h
        simp [pushesFrom, h]
      rw [List.map_congr_left h1, List.map_id]
    rw [show specQueues ([] : List (SubjectOp T)) = [] from rfl]
    rw [List.map_nil, List.append_nil, hmap]
    obtain ⟨subs, disp⟩ := s
    simp only at hd
    subst hd
    rfl
  | cons op rest ih =>
    intro s hd hatt
    cases op with
    | attach =>
      have hd2 : s.attach.isDisposed = false := hd
      have hatt2 : ∀ p ∈ s.attach.subscribers, p.1 = true := by
        intro p hp
        rcases List.mem_append.mp hp with h | h
        · exact hatt p h
        · rw [List.mem_singleton.mp h]
      show runOps s.attach rest = _
      rw [ih s.attach hd2 hatt2]
      congr 2
      show (s.subscribers ++ [(true, [])]).map _ ++ _ = _
      rw [List.map_append, pushesFrom_attach, specQueues_attach, List.map_cons,
        List.append_assoc]
      rfl
    | push v =>
      have hnext : s.next v =
          Except.ok
            ⟨s.subscribers.map fun p =>
                if p.1 then (p.1, p.2 ++ [SubjectItem.value v]) else p,
              false⟩ := by
        rw [Subject.next, if_neg (by rw [hd]; exact Bool.false_ne_true), hd]
      show (match s.next v with
        | Except.error e => Except.error e
        | Except.ok s1 => runOps s1 rest) = _
      rw [hnext]
      show runOps _ rest = _
      rw [ih _ rfl ?hatt1]
      case hatt1 =>
        intro p hp
        simp only [List.mem_map] at hp
        obtain ⟨q, hq, hfq⟩ := hp
        rw [← hfq, if_pos (hatt q hq), hatt q hq]
      congr 2
      rw [List.map_map, pushesFrom_push, specQueues_push, List.map_cons]
      refine congrArg₂ (· ++ ·) ?_ rfl
      refine List.map_congr_left fun p hp => ?_
      have h := hatt p hp
      simp [h, List.append_assoc]

theorem drainItems_values {T E : Type} :
    ∀ vs : List T,
      drainItems ((vs.map SubjectItem.value : List (SubjectItem T E)) ++
          [SubjectItem.done]) =
        (vs, some IterTerminal.done) := by
  intro vs
  induction vs with
  | nil => rfl
  | cons v vs ih =>
    show drainItems (SubjectItem.value v ::
      (vs.map SubjectItem.value ++ [SubjectItem.done])) = _
    simp only [drainItems, ih]

/-- C1: running any finite trace of consumer attaches and value pushes against
a fresh Subject and then calling `done()` succeeds, and every consumer,
iterating its queue through its iterator, observes exactly the values pushed
at or after its attach point, in push order, followed by a done result. -/
theorem subject_broadcast_order {T E : Type} (ops : List (SubjectOp T)) :
    ∃ s s2 : Subject T E,
      runOps Subject.initial ops = Except.ok s ∧
        s.done = Except.ok s2 ∧
        s2.subscribers.map (fun p => drainItems p.2) =
          (specQueues ops).map fun vs => (vs, some IterTerminal.done) := by
  have h1 : runOps (Subject.initial : Subject T E) ops =
      Except.ok
        ⟨(specQueues ops).map fun vs => (true, vs.map SubjectItem.value),
          false⟩ := by
    rw [runOps_ok ops Subject.initial rfl (by intro p hp; simp [Subject.initial] at hp)]
    rfl
  refine ⟨_,
    ⟨(specQueues ops).map fun vs =>
        (false, vs.map SubjectItem.value ++ [SubjectItem.done]), true⟩,
    h1, ?_, ?_⟩
  · show Subject.done _ = _
    rw [Subject.done, if_neg (by exact Bool.false_ne_true)]
    congr 2
    rw [List.map_map]
    refine List.map_congr_left fun vs _ => ?_
    simp
  · rw [List.map_map]
    refine List.map_congr_left fun vs _ => ?_
    exact drainItems_values vs

/-- C3 counterexample: on a Subject on which `throw()` has been called (after
one consumer attached), a subsequent `next()` does NOT fail with the
synchronous disposed fault — it succeeds (and delivers nothing, every
subscriber having been detached), because `throw` never sets `_isDisposed`. -/
theorem subject_throw_then_next_no_fault :
    (Subject.attach (Subject.initial : Subject Int Int)).throw (7 : Int) =
        Except.ok ⟨[(false, [SubjectItem.error 7])], false⟩ ∧
      Subject.next ⟨[(false, [SubjectItem.error 7])], false⟩ (5 : Int) =
        Except.ok ⟨[(false, [SubjectItem.error 7])], false⟩ :=
  ⟨rfl, rfl⟩

theorem Subject.next_detached {T E : Type}
    (subs : List (Bool × List (SubjectItem T E))) (v : T)
    (h : ∀ p ∈ subs, p.1 = false) :
    Subject.next ⟨subs, false⟩ v = Except.ok ⟨subs, false⟩ := by
  have h1 : ∀ p ∈ subs,
      (fun p => if p.1 then (p.1, p.2 ++ [SubjectItem.value v]) else p) p =
        id p := fun p hp => by simp [h p hp]
  show (Except.ok
    ⟨subs.map fun p => if p.1 then (p.1, p.2 ++ [SubjectItem.value v]) else p,
      false⟩ : Except String (Subject T E)) = Except.ok ⟨subs, false⟩
  rw [List.map_congr_left h1, List.map_id]

theorem Subject.throw_detached {T E : Type}
    (subs : List (Bool × List (SubjectItem T E))) (e : E)
    (h : ∀ p ∈ subs, p.1 = false) :
    Subject.throw ⟨subs, false⟩ e = Except.ok ⟨subs, false⟩ := by
  have h1 : ∀ p ∈ subs,
      (fun p => if p.1 then (false, p.2 ++ [SubjectItem.error e]) else p) p =
        id p := fun p hp => by simp [h p hp]
  show (Except.ok
    ⟨subs.map fun p => if p.1 then (false, p.2 ++ [SubjectItem.error e]) else p,
      false⟩ : Except String (Subject T E)) = Except.ok ⟨subs, false⟩
  rw [List.map_congr_left h1, List.map_id]

theorem Subject.done_detached {T E : Type}
    (subs : List (Bool × List (SubjectItem T E)))
    (h : ∀ p ∈ subs, p.1 = false) :
    Subject.done ⟨subs, false⟩ = Except.ok ⟨subs, true⟩ := by
  have h1 : ∀ p ∈ subs,
      (fun p => if p.1 then (false, p.2 ++ [SubjectItem.done]) else p) p =
        id p := fun p hp => by simp [h p hp]
  show (Except.ok
    ⟨subs.map fun p => if p.1 then (false, p.2 ++ [SubjectItem.done]) else p,
      true⟩ : Except String (Subject T E)) = Except.ok ⟨subs, true⟩
  rw [List.map_congr_left h1, List.map_id]

/-- C3 amended: after `done()` the Subject is disposed and every subsequent
`next`/`throw`/`done` faults synchronously with the disposed error.  `throw()`
does not dispose the Subject, so calls after a `throw` do not fault; but
`throw` detaches every subscriber, so subsequent `next`/`throw`/`done` calls
leave every existing queue unchanged — hence no consumer is ever delivered a
second terminal event. -/
theorem subject_disposed_amended {T E : Type} (v : T) (e : E)
    (s : Subject T E) :
    (s.isDisposed = true →
        s.next v = Except.error disposedError ∧
          s.throw e = Except.error disposedError ∧
          s.done = Except.error disposedError) ∧
      (∀ s2, s.done = Except.ok s2 → s2.isDisposed = true) ∧
      (∀ s2, s.throw e = Except.ok s2 →
        s2.isDisposed = s.isDisposed ∧
          (∀ p ∈ s2.subscribers, p.1 = false) ∧
          s2.next v = Except.ok s2 ∧
          s2.throw e = Except.ok s2 ∧
          ∃ s3, s2.done = Except.ok s3 ∧ s3.subscribers = s2.subscribers ∧
            s3.isDisposed = true) := by
  obtain ⟨subs, disp⟩ := s
  refine ⟨fun h => ?_, fun s2 h => ?_, fun s2 h => ?_⟩
  · replace h : disp = true := h
    subst h
    exact ⟨rfl, rfl, rfl⟩
  · cases disp with
    | true =>
      replace h : Except.error disposedError = Except.ok s2 := h
      exact Except.noConfusion h
    | false =>
      replace h : Except.ok
          (⟨subs.map fun p =>
              if p.1 then (false, p.2 ++ [SubjectItem.done]) else p,
            true⟩ : Subject T E) = Except.ok s2 := h
      injection h with h2
      rw [← h2]
  · cases disp with
    | true =>
      replace h : Except.error disposedError = Except.ok s2 := h
      exact Except.noConfusion h
    | false =>
      replace h : Except.ok
          (⟨subs.map fun p =>
              if p.1 then (false, p.2 ++ [SubjectItem.error e]) else p,
            false⟩ : Subject T E) = Except.ok s2 := h
      injection h with h2
      subst h2
      have hdetached : ∀ p ∈ (subs.map fun p =>
          if p.1 then (false, p.2 ++ [SubjectItem.error e]) else p),
          p.1 = false := by
        intro p hp
        simp only [List.mem_map] at hp
        obtain ⟨q, hq, hfq⟩ := hp
        by_cases hq1 : q.1
        · rw [← hfq, if_pos hq1]
        · rw [← hfq, if_neg hq1]
          simpa using hq1
      exact ⟨rfl, hdetached, Subject.next_detached _ v hdetached,
        Subject.throw_detached _ e hdetached,
        ⟨_, true⟩, Subject.done_detached _ hdetached, rfl, rfl⟩

theorem subject_disposed_amended_witness :
    Subject.next (⟨[(true, [])], true⟩ : Subject Int Int) (5 : Int) =
        Except.error disposedError ∧
      Subject.next (⟨[(false, [SubjectItem.error 7])], false⟩ :
          Subject Int Int) (5 : Int) =
        Except.ok ⟨[(false, [SubjectItem.error 7])], false⟩ :=
  ⟨((subject_disposed_amended (5 : Int) (7 : Int)
      (⟨[(true, [])], true⟩ : Subject Int Int)).1 rfl).1,
    ((subject_disposed_amended (5 : Int) (7 : Int)
        (⟨[(true, [])], false⟩ : Subject Int Int)).2.2
      ⟨[(false, [SubjectItem.error 7])], false⟩ rfl).2.2.1⟩

/-- C2 (code-bug evidence): two `iterator.next()` calls issued while the queue
is empty both register `once('value')` listeners (both awaited the same
already-resolved `lastNext`, so neither waited for the other).  A single
subsequent push then wakes BOTH listeners: the first shifts the pushed value,
the second shifts an empty queue and crashes with a TypeError that propagates
to the producer, and the second advance never settles — the advances were not
serialized as the claim requires. -/
theorem subscriber_concurrent_advance_crash :
    Subscriber.pushNext (1 : Int)
        (resumeAdvance (resumeAdvance
          (⟨[], 0, []⟩ : SubscriberRt Int Int))) =
      Except.error typeErrorMessage :=
  rfl

/-- C9: when a `curry2WithOptions` operator (`collect`, `collectRecord`) is
called with exactly two arguments and the second is not `undefined`, the
second argument is treated as the sequence (full call) if and only if
`isIterableOrIterator` holds of it — i.e. it exposes a `next` method,
`Symbol.iterator`, or `Symbol.asyncIterator`; any non-null object lacking all
three capabilities is instead captured as the options object and a partial
function awaiting the sequence is returned. -/
theorem curry2WithOptions_disambiguation {A R : Type}
    (func : A → JSVal → JSVal → R) (a : A) (b : JSVal) (hb : b ≠ JSVal.undef) :
    (isIterableOrIterator b = true →
        curry2WithOptions func a b = Curry2OptCall.fullCall (func a b JSVal.undef)) ∧
      (isIterableOrIterator b = false →
        curry2WithOptions func a b = Curry2OptCall.awaitSeq b) ∧
      ((∃ r, curry2WithOptions func a b = Curry2OptCall.fullCall r) ↔
        isIterableOrIterator b = true) := by
  match b with
  | JSVal.undef => exact absurd rfl hb
  | JSVal.jsNull =>
    refine ⟨fun h => by simp [isIterableOrIterator] at h, fun _ => rfl, ?_⟩
    simp [curry2WithOptions, isIterableOrIterator]
  | JSVal.obj si ai nx =>
    refine ⟨fun h => ?_, fun h => ?_, ?_⟩
    · simp [curry2WithOptions, h]
    · simp [curry2WithOptions, h]
    · constructor
      · rintro ⟨r, hr⟩
        by_contra hno
        simp only [Bool.not_eq_true] at hno
        simp [curry2WithOptions, hno] at hr
      · intro h
        exact ⟨func a (JSVal.obj si ai nx) JSVal.undef, by simp [curry2WithOptions, h]⟩

theorem curry2WithOptions_disambiguation_witness :
    curry2WithOptions (fun (_ : Unit) (_ _ : JSVal) => (0 : Nat)) ()
        (JSVal.obj false false false) =
      Curry2OptCall.awaitSeq (JSVal.obj false false false) :=
  (curry2WithOptions_disambiguation (fun (_ : Unit) (_ _ : JSVal) => (0 : Nat))
    () (JSVal.obj false false false) (by decide)).2.1 rfl

/-- C10: for every operator built with `curry2` (map, filterMap, flatMap,
filter, zip, throttle, take, takeUntil, all, any, find, partition),
`op(a)(b)` equals `op(a, b)` for every defined `b`, and `op(a, undefined)`
returns the partial unary function `(b) => func(a, b)` instead of invoking
the operator with `undefined`. -/
theorem curry2_partial_application {A B R : Type} (func : A → B → R) (a : A) :
    curry2 func a none = Curry2Call.unary (fun b => func a b) ∧
      ∀ bv : B, curry2 func a (some bv) = Curry2Call.fullCall (func a bv) ∧
        (fun b => func a b) bv = func a bv :=
  ⟨rfl, fun _ => ⟨rfl, rfl⟩⟩
